import Mathlib

/-!
Verification of the memory-hierarchy simulator (`src/main.py`).

The simulation engine is shallowly embedded: Python classes become
structures, in-place mutation becomes explicit state passing, and the
wall-clock reads (`time.time()`) become a strictly increasing logical
clock threaded through a `SimCtx`.  The `random` module is modeled as
injectable streams carried in the same context (a `Nat` stream for
`random.choice` / `random.randint`, and an `Int` stream passed to the
locality generator for the truncated `random.gauss` draws).  Fallible
Python operations (division by zero, `randint` with an empty range)
return `Option` / `Except`.
-/

set_option linter.unusedVariables false

/-- Errors a run of the engine can surface.  `zeroDivision` models Python's
`ZeroDivisionError`; `configurationError` and `invalidArgument` are the error
classes named by the specification (the source never raises either). -/
inductive SimError
  | zeroDivision
  | configurationError
  | invalidArgument
deriving DecidableEq, Repr

/-- Replacement policies recognized by `CacheSet.replace` in the source. -/
inductive Policy
  | LRU
  | MRU
  | LFU
  | FIFO
  | Random
deriving DecidableEq, Repr

/-- Execution context: the logical clock standing in for `time.time()` and the
injected stream standing in for the `random` module. -/
structure SimCtx where
  clock : Nat
  rng : Nat → Nat
  rix : Nat

/-- One `time.time()` call: returns the current instant, advances the clock. -/
def SimCtx.time (c : SimCtx) : Nat × SimCtx :=
  (c.clock, { c with clock := c.clock + 1 })

/-- One draw from the injected random stream. -/
def SimCtx.draw (c : SimCtx) : Nat × SimCtx :=
  (c.rng c.rix, { c with rix := c.rix + 1 })

/-- `CacheBlock` from the source: a resident entry with eviction metadata. -/
structure CacheBlock where
  tag : Nat
  last_access : Nat
  insertion_time : Nat
  access_count : Nat
deriving DecidableEq, Repr

/-- `CacheBlock.__init__`: both timestamp fields read the clock
(`last_access` first, then `insertion_time`) and `access_count` starts at 1. -/
def CacheBlock.new (tag : Nat) (c : SimCtx) : CacheBlock × SimCtx :=
  let r1 := c.time
  let r2 := r1.2.time
  (⟨tag, r1.1, r2.1, 1⟩, r2.2)

/-- `CacheSet` from the source. -/
structure CacheSet where
  capacity : Nat
  blocks : List CacheBlock
  policy : Policy
deriving DecidableEq, Repr

/-- The scan shared by `CacheSet.access` and `CacheSet.insert`: find the first
block with the given tag, refresh its `last_access` and `access_count`.
Returns `none` when the tag is not resident. -/
def touchBlock (tag t : Nat) : List CacheBlock → Option (List CacheBlock)
  | [] => none
  | b :: bs =>
    if b.tag = tag then
      some ({ b with last_access := t, access_count := b.access_count + 1 } :: bs)
    else
      (touchBlock tag t bs).map (fun bs' => b :: bs')

/-- `CacheSet.access`: touch the resident block if present (reading the clock
only on a hit, as the source only calls `time.time()` inside the loop). -/
def CacheSet.access (s : CacheSet) (tag : Nat) (c : SimCtx) :
    Bool × CacheSet × SimCtx :=
  let r := c.time
  match touchBlock tag r.1 s.blocks with
  | some bs' => (true, { s with blocks := bs' }, r.2)
  | none => (false, s, c)

/-- Index (together with the element) of the first block minimizing `f`,
mirroring Python's `min(xs, key=f)` which keeps the earliest extremal
element. -/
def minWithIdx (f : CacheBlock → Nat) : List CacheBlock → Option (CacheBlock × Nat)
  | [] => none
  | b :: bs =>
    match minWithIdx f bs with
    | none => some (b, 0)
    | some (m, j) => if f b ≤ f m then some (b, 0) else some (m, j + 1)

/-- Index of the first block maximizing `f`, mirroring `max(xs, key=f)`. -/
def maxWithIdx (f : CacheBlock → Nat) : List CacheBlock → Option (CacheBlock × Nat)
  | [] => none
  | b :: bs =>
    match maxWithIdx f bs with
    | none => some (b, 0)
    | some (m, j) => if f m ≤ f b then some (b, 0) else some (m, j + 1)

/-- Position of the victim `CacheSet.replace` removes, per policy.  `r` is the
value drawn from the random stream (used only by `Random`); Python's
`random.choice` picks a uniform position, modeled as `r % length`. -/
def CacheSet.victimIdx (s : CacheSet) (r : Nat) : Nat :=
  match s.policy with
  | Policy.LRU => ((minWithIdx (fun b => b.last_access) s.blocks).map Prod.snd).getD 0
  | Policy.MRU => ((maxWithIdx (fun b => b.last_access) s.blocks).map Prod.snd).getD 0
  | Policy.LFU => ((minWithIdx (fun b => b.access_count) s.blocks).map Prod.snd).getD 0
  | Policy.FIFO => ((minWithIdx (fun b => b.insertion_time) s.blocks).map Prod.snd).getD 0
  | Policy.Random => r % s.blocks.length

/-- `CacheSet.replace`: no-op on an empty set, otherwise remove the victim
(`list.remove` on the exact object is removal at the victim's position). -/
def CacheSet.replace (s : CacheSet) (c : SimCtx) : CacheSet × SimCtx :=
  if s.blocks.isEmpty then (s, c)
  else
    match s.policy with
    | Policy.Random =>
      let r := c.draw
      ({ s with blocks := s.blocks.eraseIdx (s.victimIdx r.1) }, r.2)
    | _ => ({ s with blocks := s.blocks.eraseIdx (s.victimIdx 0) }, c)

/-- `CacheSet.insert`: refresh a resident tag, otherwise evict when full and
append a fresh block. -/
def CacheSet.insert (s : CacheSet) (tag : Nat) (c : SimCtx) : CacheSet × SimCtx :=
  let r := c.time
  match touchBlock tag r.1 s.blocks with
  | some bs' => ({ s with blocks := bs' }, r.2)
  | none =>
    let sr := if s.capacity ≤ s.blocks.length then s.replace c else (s, c)
    let nb := CacheBlock.new tag sr.2
    ({ sr.1 with blocks := sr.1.blocks ++ [nb.1] }, nb.2)

/-- Lookup in the sparse `sets` dictionary (insertion-ordered association
list, as Python dicts preserve insertion order). -/
def findSet (k : Nat) : List (Nat × CacheSet) → Option CacheSet
  | [] => none
  | p :: rest => if p.1 = k then some p.2 else findSet k rest

/-- Update (or append) the entry at key `k`, in place like a dict store. -/
def setSet (k : Nat) (v : CacheSet) : List (Nat × CacheSet) → List (Nat × CacheSet)
  | [] => [(k, v)]
  | p :: rest => if p.1 = k then (k, v) :: rest else p :: setSet k v rest

/-- `CacheLevel` from the source. -/
structure CacheLevel where
  name : String
  size : Nat
  block_size : Nat
  associativity : Nat
  access_time : Nat
  policy : Policy
  num_sets : Nat
  sets : List (Nat × CacheSet)
  hits : Nat
  misses : Nat
deriving DecidableEq, Repr

/-- `CacheLevel.__init__`.  Python divides with `/` and truncates via `int`,
raising `ZeroDivisionError` when `block_size` is zero; for non-negative
operands the truncation is ordinary `Nat` division.  Associativity 0 means
fully associative: one set whose capacity is the whole level. -/
def CacheLevel.init (name : String) (size_bytes block_size associativity access_time : Nat)
    (policy : Policy) : Except SimError CacheLevel :=
  if block_size = 0 then Except.error SimError.zeroDivision
  else if associativity = 0 then
    Except.ok ⟨name, size_bytes, block_size, size_bytes / block_size, access_time, policy,
      1, [], 0, 0⟩
  else
    Except.ok ⟨name, size_bytes, block_size, associativity, access_time, policy,
      max 1 (size_bytes / (block_size * associativity)), [], 0, 0⟩

/-- `CacheLevel.get_index_and_tag`: the set-associative address split. -/
def CacheLevel.get_index_and_tag (l : CacheLevel) (address : Nat) : Nat × Nat :=
  ((address / l.block_size) % l.num_sets, (address / l.block_size) / l.num_sets)

/-- `CacheLevel.access` (the probe): a missing set reports a miss without
touching either counter; an existing set delegates to `CacheSet.access` and
bumps exactly one counter. -/
def CacheLevel.access (l : CacheLevel) (address : Nat) (c : SimCtx) :
    Bool × CacheLevel × SimCtx :=
  let it := l.get_index_and_tag address
  match findSet it.1 l.sets with
  | none => (false, l, c)
  | some s =>
    let r := s.access it.2 c
    if r.1 then
      (true, { l with sets := setSet it.1 r.2.1 l.sets, hits := l.hits + 1 }, r.2.2)
    else
      (false, { l with sets := setSet it.1 r.2.1 l.sets, misses := l.misses + 1 }, r.2.2)

/-- `CacheLevel.insert` (the warm-up): create the set lazily, then admit. -/
def CacheLevel.insert (l : CacheLevel) (address : Nat) (c : SimCtx) :
    CacheLevel × SimCtx :=
  let it := l.get_index_and_tag address
  let s0 := match findSet it.1 l.sets with
    | none => CacheSet.mk l.associativity [] l.policy
    | some s => s
  let r := s0.insert it.2 c
  ({ l with sets := setSet it.1 r.1 l.sets }, r.2)

/-- `MemoryHierarchy` from the source: the ordered cache/RAM chain plus the
terminal disk store. -/
structure MemoryHierarchy where
  levels : List CacheLevel
  disk_level : CacheLevel
deriving DecidableEq, Repr

/-- Configuration record consumed by `MemoryHierarchy.__init__`. -/
structure Config where
  policy : Policy
  block_size : Nat
  l1_size : Nat
  l1_assoc : Nat
  l1_time : Nat
  l2_enabled : Bool
  l2_size : Nat
  l2_assoc : Nat
  l2_time : Nat
  l3_enabled : Bool
  l3_size : Nat
  l3_assoc : Nat
  l3_time : Nat
  ram_size : Nat
  ram_time : Nat
  disk_size : Nat
  disk_time : Nat
deriving DecidableEq, Repr

/-- `MemoryHierarchy.__init__`: build L1, optionally L2/L3, RAM (associativity
8), and the disk level (associativity 1, FIFO).  The first level construction
that raises aborts the whole constructor, exactly as in Python. -/
def MemoryHierarchy.init (config : Config) : Except SimError MemoryHierarchy :=
  match CacheLevel.init "L1 Cache" config.l1_size config.block_size config.l1_assoc
      config.l1_time config.policy with
  | Except.error e => Except.error e
  | Except.ok l1 =>
    match (if config.l2_enabled then
        (CacheLevel.init "L2 Cache" config.l2_size config.block_size config.l2_assoc
          config.l2_time config.policy).map (fun l => [l])
      else Except.ok []) with
    | Except.error e => Except.error e
    | Except.ok ls2 =>
      match (if config.l3_enabled then
          (CacheLevel.init "L3 Cache" config.l3_size config.block_size config.l3_assoc
            config.l3_time config.policy).map (fun l => [l])
        else Except.ok []) with
      | Except.error e => Except.error e
      | Except.ok ls3 =>
        match CacheLevel.init "Main Memory (RAM)" (config.ram_size * 1024 * 1024)
            config.block_size 8 config.ram_time config.policy with
        | Except.error e => Except.error e
        | Except.ok ram =>
          match CacheLevel.init "Secondary Memory (Disk)"
              (config.disk_size * 1024 * 1024 * 1024) config.block_size 1
              config.disk_time Policy.FIFO with
          | Except.error e => Except.error e
          | Except.ok disk => Except.ok ⟨[l1] ++ ls2 ++ ls3 ++ [ram], disk⟩

/-- The probe loop of `access_memory`: probe levels fast to slow, accumulating
access times, stopping at the first hit.  Returns the (position, name) of the
hitting level when one hits, the accumulated time, the updated levels, and the
updated context. -/
def probePhase (addr : Nat) : List CacheLevel → SimCtx → Nat →
    Option (Nat × String) × Nat × List CacheLevel × SimCtx
  | [], c, total => (none, total, [], c)
  | l :: rest, c, total =>
    let r := l.access addr c
    if r.1 then
      (some (0, l.name), total + l.access_time, r.2.1 :: rest, r.2.2)
    else
      let pr := probePhase addr rest r.2.2 (total + l.access_time)
      (pr.1.map (fun p => (p.1 + 1, p.2)), pr.2.1, r.2.1 :: pr.2.2.1, pr.2.2.2)

/-- The partial warm-up after an intermediate hit: `for j in range(i):
levels[j].insert(address)` — warm only the first `k` levels, in order. -/
def warmFirstK (addr : Nat) : Nat → List CacheLevel → SimCtx →
    List CacheLevel × SimCtx
  | 0, ls, c => (ls, c)
  | _ + 1, [], c => ([], c)
  | k + 1, l :: rest, c =>
    let r := l.insert addr c
    let w := warmFirstK addr k rest r.2
    (r.1 :: w.1, w.2)

/-- The full warm-up after a terminal resolution: warm every level in order. -/
def warmAll (addr : Nat) : List CacheLevel → SimCtx → List CacheLevel × SimCtx
  | [], c => ([], c)
  | l :: rest, c =>
    let r := l.insert addr c
    let w := warmAll addr rest r.2
    (r.1 :: w.1, w.2)

/-- `MemoryHierarchy.access_memory`: resolve one address.  On a hit at
position `i`, warm levels `0..i-1`; otherwise charge the disk, bump its `hits`
unconditionally, warm it, and warm every level. -/
def MemoryHierarchy.access_memory (h : MemoryHierarchy) (addr : Nat) (c : SimCtx) :
    (Nat × String) × MemoryHierarchy × SimCtx :=
  let pr := probePhase addr h.levels c 0
  match pr.1 with
  | some (i, nm) =>
    let w := warmFirstK addr i pr.2.2.1 pr.2.2.2
    ((pr.2.1, nm), ⟨w.1, h.disk_level⟩, w.2)
  | none =>
    let d1 : CacheLevel := { h.disk_level with hits := h.disk_level.hits + 1 }
    let rd := d1.insert addr pr.2.2.2
    let w := warmAll addr pr.2.2.1 rd.2
    ((pr.2.1 + h.disk_level.access_time, "Disk"), ⟨w.1, rd.1⟩, w.2)

/-- `AccessPatternGenerator` from the source: just the stored bound.  The
address space is kept as an `Int` so that non-positive requests are
representable. -/
structure AccessPatternGenerator where
  max_address : Int
deriving DecidableEq, Repr

/-- `AccessPatternGenerator.__init__`: the source stores `max_address` and
performs no validation whatsoever, so construction never fails. -/
def AccessPatternGenerator.init (max_address : Int) :
    Except SimError AccessPatternGenerator :=
  Except.ok ⟨max_address⟩

/-- `random.randint(lo, hi)`: raises when the range is empty, otherwise a
uniform draw, modeled from the injected stream. -/
def randint (lo hi : Int) (c : SimCtx) : Option (Int × SimCtx) :=
  if hi < lo then none
  else
    let r := c.draw
    some (lo + (r.1 : Int) % (hi - lo + 1), r.2)

/-- The body of `generate_locality`'s loop.  Every iteration evaluates
`i % (num_requests // 10)`, which is Python's `ZeroDivisionError` when
`num_requests // 10` is zero — the source has no clamp, so the model returns
`none` there.  `gsrc` is the injected stream of truncated Gaussian offsets. -/
def localityLoop (g : AccessPatternGenerator) (gsrc : Nat → Int) (num_requests : Nat) :
    Nat → Nat → Int → SimCtx → Nat → List Int → Option (List Int × SimCtx)
  | 0, _, _, c, _, acc => some (acc.reverse, c)
  | remaining + 1, i, hs, c, gi, acc =>
    if num_requests / 10 = 0 then none
    else
      let hsc : Option (Int × SimCtx) :=
        if i % (num_requests / 10) = 0 then randint 0 g.max_address c
        else some (hs, c)
      match hsc with
      | none => none
      | some (hs', c') =>
        let offset := gsrc gi
        if g.max_address = 0 then none
        else
          let a1 : Int := ((hs' + offset).natAbs : Int) % g.max_address
          let addr := a1 - a1 % 4
          localityLoop g gsrc num_requests remaining (i + 1) hs' c' (gi + 1) (addr :: acc)

/-- `AccessPatternGenerator.generate_locality`: draw the initial hotspot, then
run the loop for `num_requests` iterations. -/
def AccessPatternGenerator.generate_locality (g : AccessPatternGenerator)
    (gsrc : Nat → Int) (c : SimCtx) (num_requests : Nat) :
    Option (List Int × SimCtx) :=
  match randint 0 g.max_address c with
  | none => none
  | some (hs0, c0) => localityLoop g gsrc num_requests num_requests 0 hs0 c0 0 []

/-- `PerformanceAnalyzer` from the source; `amat` is the true-division result,
modeled exactly over the rationals. -/
structure PerformanceAnalyzer where
  hierarchy : MemoryHierarchy
  total_time : Nat
  num_requests : Nat
  amat : ℚ

/-- `PerformanceAnalyzer.__init__`. -/
def PerformanceAnalyzer.init (h : MemoryHierarchy) (total_time num_requests : Nat) :
    PerformanceAnalyzer :=
  ⟨h, total_time, num_requests,
    if 0 < num_requests then (total_time : ℚ) / (num_requests : ℚ) else 0⟩

/-- One `touch`/`admit` step on a single set, for stating set invariants. -/
inductive SetOp
  | touch (tag : Nat)
  | ins (tag : Nat)
deriving DecidableEq, Repr

/-- Run a sequence of `access`/`insert` calls against one set. -/
def runOps (s : CacheSet) (c : SimCtx) : List SetOp → CacheSet × SimCtx
  | [] => (s, c)
  | SetOp.touch tg :: ops =>
    let r := s.access tg c
    runOps r.2.1 r.2.2 ops
  | SetOp.ins tg :: ops =>
    let r := s.insert tg c
    runOps r.1 r.2 ops

/-- Run a sequence of probes against one level (for counter conservation). -/
def accessFold (l : CacheLevel) (c : SimCtx) : List Nat → CacheLevel × SimCtx
  | [] => (l, c)
  | a :: as' =>
    let r := l.access a c
    accessFold r.2.1 r.2.2 as'

/-- Run a sequence of `access_memory` calls against a hierarchy. -/
def runAddrs (h : MemoryHierarchy) (c : SimCtx) : List Nat → MemoryHierarchy × SimCtx
  | [] => (h, c)
  | a :: as' =>
    let r := h.access_memory a c
    runAddrs r.2.1 r.2.2 as'

/-- The per-index block tags of a level: what "set contents" means for the
inclusion claims (metadata updates aside, which blocks live where). -/
def levelTags (l : CacheLevel) : List (Nat × List Nat) :=
  l.sets.map (fun p => (p.1, p.2.blocks.map (fun b => b.tag)))

/-! ### Lemmas about a single `CacheSet` -/

theorem touchBlock_tags (tag t : Nat) :
    ∀ bs bs', touchBlock tag t bs = some bs' →
      bs'.map (fun b => b.tag) = bs.map (fun b => b.tag) := by
  intro bs
  induction bs with
  | nil => intro bs' h; simp [touchBlock] at h
  | cons b rest ih =>
    intro bs' h
    by_cases hb : b.tag = tag
    · simp [touchBlock, hb] at h
      subst h
      simp [hb]
    · simp [touchBlock, hb] at h
      obtain ⟨bs'', hbs'', rfl⟩ := h
      simp [ih bs'' hbs'']

theorem touchBlock_isSome_iff (tag t : Nat) :
    ∀ bs, (touchBlock tag t bs).isSome ↔ tag ∈ bs.map (fun b => b.tag) := by
  intro bs
  induction bs with
  | nil => simp [touchBlock]
  | cons b rest ih =>
    by_cases hb : b.tag = tag
    · simp [touchBlock, hb]
    · simp [touchBlock, hb, ih, Ne.symm hb]

theorem touchBlock_none_iff (tag t : Nat) (bs : List CacheBlock) :
    touchBlock tag t bs = none ↔ tag ∉ bs.map (fun b => b.tag) := by
  rw [← touchBlock_isSome_iff tag t bs, Option.isSome_iff_exists]
  cases touchBlock tag t bs <;> simp

theorem CacheSet.access_fst_iff (s : CacheSet) (tag : Nat) (c : SimCtx) :
    (s.access tag c).1 = true ↔ tag ∈ s.blocks.map (fun b => b.tag) := by
  rw [← touchBlock_isSome_iff tag c.clock s.blocks]
  unfold CacheSet.access SimCtx.time
  cases h : touchBlock tag c.clock s.blocks <;> simp [h]

theorem CacheSet.access_tags (s : CacheSet) (tag : Nat) (c : SimCtx) :
    (s.access tag c).2.1.blocks.map (fun b => b.tag) = s.blocks.map (fun b => b.tag) := by
  unfold CacheSet.access SimCtx.time
  cases h : touchBlock tag c.clock s.blocks with
  | none => simp [h]
  | some bs' => simpa [h] using touchBlock_tags tag c.clock s.blocks bs' h

theorem CacheSet.access_capacity (s : CacheSet) (tag : Nat) (c : SimCtx) :
    (s.access tag c).2.1.capacity = s.capacity := by
  unfold CacheSet.access SimCtx.time
  cases h : touchBlock tag c.clock s.blocks <;> simp [h]

theorem CacheSet.access_policy (s : CacheSet) (tag : Nat) (c : SimCtx) :
    (s.access tag c).2.1.policy = s.policy := by
  unfold CacheSet.access SimCtx.time
  cases h : touchBlock tag c.clock s.blocks <;> simp [h]

theorem minWithIdx_idx_lt (f : CacheBlock → Nat) :
    ∀ bs m j, minWithIdx f bs = some (m, j) → j < bs.length := by
  intro bs
  induction bs with
  | nil => intro m j h; simp [minWithIdx] at h
  | cons b rest ih =>
    intro m j h
    simp only [minWithIdx] at h
    cases hr : minWithIdx f rest with
    | none =>
      rw [hr] at h
      simp only [Option.some.injEq, Prod.mk.injEq] at h
      simp [← h.2]
    | some p =>
      obtain ⟨m', j'⟩ := p
      rw [hr] at h
      by_cases hle : f b ≤ f m'
      · simp only [if_pos hle, Option.some.injEq, Prod.mk.injEq] at h
        simp [← h.2]
      · simp only [if_neg hle, Option.some.injEq, Prod.mk.injEq] at h
        have hj := ih m' j' hr
        simp only [List.length_cons]
        omega

theorem maxWithIdx_idx_lt (f : CacheBlock → Nat) :
    ∀ bs m j, maxWithIdx f bs = some (m, j) → j < bs.length := by
  intro bs
  induction bs with
  | nil => intro m j h; simp [maxWithIdx] at h
  | cons b rest ih =>
    intro m j h
    simp only [maxWithIdx] at h
    cases hr : maxWithIdx f rest with
    | none =>
      rw [hr] at h
      simp only [Option.some.injEq, Prod.mk.injEq] at h
      simp [← h.2]
    | some p =>
      obtain ⟨m', j'⟩ := p
      rw [hr] at h
      by_cases hle : f m' ≤ f b
      · simp only [if_pos hle, Option.some.injEq, Prod.mk.injEq] at h
        simp [← h.2]
      · simp only [if_neg hle, Option.some.injEq, Prod.mk.injEq] at h
        have hj := ih m' j' hr
        simp only [List.length_cons]
        omega

theorem minWithIdx_isSome (f : CacheBlock → Nat) (bs : List CacheBlock) (h : bs ≠ []) :
    (minWithIdx f bs).isSome := by
  cases bs with
  | nil => exact absurd rfl h
  | cons b rest =>
    simp only [minWithIdx]
    cases hr : minWithIdx f rest with
    | none => simp
    | some p => by_cases hle : f b ≤ f p.1 <;> simp [hle]

theorem maxWithIdx_isSome (f : CacheBlock → Nat) (bs : List CacheBlock) (h : bs ≠ []) :
    (maxWithIdx f bs).isSome := by
  cases bs with
  | nil => exact absurd rfl h
  | cons b rest =>
    simp only [maxWithIdx]
    cases hr : maxWithIdx f rest with
    | none => simp
    | some p => by_cases hle : f p.1 ≤ f b <;> simp [hle]

theorem CacheSet.victimIdx_lt (s : CacheSet) (r : Nat) (h : s.blocks ≠ []) :
    s.victimIdx r < s.blocks.length := by
  unfold CacheSet.victimIdx
  have hlen : 0 < s.blocks.length := List.length_pos.mpr h
  cases hp : s.policy
  case LRU =>
    cases hm : minWithIdx (fun b => b.last_access) s.blocks with
    | none => simpa [hm] using minWithIdx_isSome (fun b => b.last_access) s.blocks h
    | some p => simpa [hm] using minWithIdx_idx_lt _ s.blocks p.1 p.2 (by rw [hm])
  case MRU =>
    cases hm : maxWithIdx (fun b => b.last_access) s.blocks with
    | none => simpa [hm] using maxWithIdx_isSome (fun b => b.last_access) s.blocks h
    | some p => simpa [hm] using maxWithIdx_idx_lt _ s.blocks p.1 p.2 (by rw [hm])
  case LFU =>
    cases hm : minWithIdx (fun b => b.access_count) s.blocks with
    | none => simpa [hm] using minWithIdx_isSome (fun b => b.access_count) s.blocks h
    | some p => simpa [hm] using minWithIdx_idx_lt _ s.blocks p.1 p.2 (by rw [hm])
  case FIFO =>
    cases hm : minWithIdx (fun b => b.insertion_time) s.blocks with
    | none => simpa [hm] using minWithIdx_isSome (fun b => b.insertion_time) s.blocks h
    | some p => simpa [hm] using minWithIdx_idx_lt _ s.blocks p.1 p.2 (by rw [hm])
  case Random => exact Nat.mod_lt _ hlen

theorem touchBlock_mem (tag t : Nat) (bs bs' : List CacheBlock)
    (h : touchBlock tag t bs = some bs') : tag ∈ bs'.map (fun b => b.tag) := by
  rw [touchBlock_tags tag t bs bs' h]
  exact (touchBlock_isSome_iff tag t bs).mp (by simp [h])

theorem CacheSet.replace_blocks (s : CacheSet) (c : SimCtx) (h : s.blocks ≠ []) :
    ∃ i, i < s.blocks.length ∧ (s.replace c).1.blocks = s.blocks.eraseIdx i := by
  unfold CacheSet.replace
  have hne : s.blocks.isEmpty = false := by simpa using h
  cases hp : s.policy <;>
    simp only [hne, Bool.false_eq_true, if_false, hp] <;>
    first
      | exact ⟨s.victimIdx 0, s.victimIdx_lt 0 h, rfl⟩
      | exact ⟨s.victimIdx (c.draw).1, s.victimIdx_lt _ h, rfl⟩

theorem CacheSet.replace_capacity (s : CacheSet) (c : SimCtx) :
    (s.replace c).1.capacity = s.capacity := by
  unfold CacheSet.replace
  by_cases he : s.blocks.isEmpty <;> cases hp : s.policy <;> simp [he, hp]

theorem CacheSet.replace_policy (s : CacheSet) (c : SimCtx) :
    (s.replace c).1.policy = s.policy := by
  unfold CacheSet.replace
  by_cases he : s.blocks.isEmpty <;> cases hp : s.policy <;> simp [he, hp]

theorem CacheSet.insert_capacity (s : CacheSet) (tag : Nat) (c : SimCtx) :
    (s.insert tag c).1.capacity = s.capacity := by
  unfold CacheSet.insert SimCtx.time
  cases ht : touchBlock tag c.clock s.blocks with
  | some bs' => simp [ht]
  | none =>
    by_cases hc : s.capacity ≤ s.blocks.length <;>
      simp [ht, hc, CacheSet.replace_capacity]

theorem CacheSet.insert_mem (s : CacheSet) (tag : Nat) (c : SimCtx) :
    tag ∈ (s.insert tag c).1.blocks.map (fun b => b.tag) := by
  unfold CacheSet.insert SimCtx.time
  cases ht : touchBlock tag c.clock s.blocks with
  | some bs' =>
    simpa [ht] using touchBlock_mem tag c.clock s.blocks bs' ht
  | none =>
    by_cases hc : s.capacity ≤ s.blocks.length <;>
      simp [ht, hc, CacheBlock.new, SimCtx.time]

/-- The two-part invariant of §3: occupancy bounded by capacity, tags unique. -/
def SetInv (s : CacheSet) : Prop :=
  s.blocks.length ≤ s.capacity ∧ (s.blocks.map (fun b => b.tag)).Nodup

theorem CacheSet.access_inv (s : CacheSet) (tag : Nat) (c : SimCtx) (h : SetInv s) :
    SetInv (s.access tag c).2.1 := by
  obtain ⟨h1, h2⟩ := h
  have hlen : (s.access tag c).2.1.blocks.length = s.blocks.length := by
    have := congrArg List.length (CacheSet.access_tags s tag c)
    simpa using this
  constructor
  · rw [CacheSet.access_capacity, hlen]; exact h1
  · rw [CacheSet.access_tags]; exact h2

theorem CacheSet.insert_inv (s : CacheSet) (tag : Nat) (c : SimCtx)
    (hcap : 0 < s.capacity) (h : SetInv s) : SetInv (s.insert tag c).1 := by
  obtain ⟨h1, h2⟩ := h
  unfold CacheSet.insert SimCtx.time
  cases ht : touchBlock tag c.clock s.blocks with
  | some bs' =>
    have htags := touchBlock_tags tag c.clock s.blocks bs' ht
    have hlen : bs'.length = s.blocks.length := by
      have := congrArg List.length htags
      simpa using this
    exact ⟨by simpa [ht, hlen] using h1, by simpa [ht, htags] using h2⟩
  | none =>
    have hnotmem : tag ∉ s.blocks.map (fun b => b.tag) :=
      (touchBlock_none_iff tag c.clock s.blocks).mp ht
    by_cases hc : s.capacity ≤ s.blocks.length
    · have hne : s.blocks ≠ [] := by
        intro he
        rw [he] at hc
        simp at hc
        omega
      obtain ⟨i, hi, hbl⟩ := CacheSet.replace_blocks s c hne
      have hsub : ((s.replace c).1.blocks.map (fun b => b.tag)).Sublist
          (s.blocks.map (fun b => b.tag)) := by
        rw [hbl]
        exact (List.eraseIdx_sublist s.blocks i).map _
      have hrlen : (s.replace c).1.blocks.length = s.blocks.length - 1 := by
        rw [hbl]
        exact List.length_eraseIdx_of_lt hi
      constructor
      · simp only [ht, hc, if_pos, List.length_append, List.length_cons,
          List.length_nil, CacheSet.replace_capacity, hrlen]
        omega
      · simp only [ht, hc, if_pos, List.map_append, CacheBlock.new]
        rw [List.nodup_append]
        refine ⟨h2.sublist hsub, by simp, ?_⟩
        intro x hx hx'
        simp at hx'
        subst hx'
        exact hnotmem (hsub.mem hx)
    · constructor
      · simp only [ht, hc, if_neg, not_false_iff, List.length_append,
          List.length_cons, List.length_nil]
        omega
      · simp only [ht, hc, if_neg, not_false_iff, List.map_append, CacheBlock.new]
        rw [List.nodup_append]
        refine ⟨h2, by simp, ?_⟩
        intro x hx hx'
        simp at hx'
        subst hx'
        exact hnotmem hx

theorem runOps_inv : ∀ (ops : List SetOp) (s : CacheSet) (c : SimCtx),
    0 < s.capacity → SetInv s →
    SetInv (runOps s c ops).1 ∧ (runOps s c ops).1.capacity = s.capacity := by
  intro ops
  induction ops with
  | nil => intro s c hc h; exact ⟨h, rfl⟩
  | cons op rest ih =>
    intro s c hc h
    cases op with
    | touch tg =>
      have hcap := CacheSet.access_capacity s tg c
      have hrec := ih (s.access tg c).2.1 (s.access tg c).2.2
        (by rw [hcap]; exact hc) (CacheSet.access_inv s tg c h)
      simp only [runOps]
      exact ⟨hrec.1, by rw [hrec.2, hcap]⟩
    | ins tg =>
      have hcap := CacheSet.insert_capacity s tg c
      have hrec := ih (s.insert tg c).1 (s.insert tg c).2
        (by rw [hcap]; exact hc) (CacheSet.insert_inv s tg c hc h)
      simp only [runOps]
      exact ⟨hrec.1, by rw [hrec.2, hcap]⟩

/-- A fixed context for concrete instantiations: clock 0, all-zero stream. -/
def ctx0 : SimCtx := ⟨0, fun _ => 0, 0⟩

/-- C4: for every Set with capacity > 0 and every sequence of touch (access)
and admit (insert) operations starting from the empty Set,
`len(blocks) ≤ capacity` holds after every operation completes, and each tag
occurs at most once in the Set's block collection. -/
theorem set_capacity_invariant (cap : Nat) (pol : Policy) (hcap : 0 < cap)
    (c : SimCtx) (ops : List SetOp) :
    (runOps ⟨cap, [], pol⟩ c ops).1.blocks.length ≤ cap ∧
    ((runOps ⟨cap, [], pol⟩ c ops).1.blocks.map (fun b => b.tag)).Nodup := by
  have h := runOps_inv ops ⟨cap, [], pol⟩ c hcap ⟨by simp, by simp⟩
  exact ⟨by have := h.1.1; rw [h.2] at this; exact this, h.1.2⟩

/-- Witness for C4: a capacity-1 LRU set with two conflicting admissions. -/
theorem set_capacity_invariant_witness :
    (runOps ⟨1, [], Policy.LRU⟩ ctx0 [SetOp.ins 0, SetOp.ins 1]).1.blocks.length ≤ 1 ∧
    ((runOps ⟨1, [], Policy.LRU⟩ ctx0 [SetOp.ins 0, SetOp.ins 1]).1.blocks.map
      (fun b => b.tag)).Nodup :=
  set_capacity_invariant 1 Policy.LRU (by decide) ctx0 [SetOp.ins 0, SetOp.ins 1]

/-- C5: for a FIFO-policy Set of capacity 2, starting empty, the sequence
admit(A), admit(B), touch(A), admit(C) evicts A — the block with the earliest
`insertion_time`, which the intervening touch did not change — leaving exactly
B and C resident. -/
theorem fifo_ignores_retouch (A B C : Nat) (hAB : A ≠ B) (hAC : A ≠ C) (hBC : B ≠ C)
    (c : SimCtx) :
    ((runOps ⟨2, [], Policy.FIFO⟩ c
        [SetOp.ins A, SetOp.ins B, SetOp.touch A, SetOp.ins C]).1.blocks.map
      (fun b => b.tag)) = [B, C] ∧
    A ∉ ((runOps ⟨2, [], Policy.FIFO⟩ c
        [SetOp.ins A, SetOp.ins B, SetOp.touch A, SetOp.ins C]).1.blocks.map
      (fun b => b.tag)) := by
  have hmain : ((runOps ⟨2, [], Policy.FIFO⟩ c
      [SetOp.ins A, SetOp.ins B, SetOp.touch A, SetOp.ins C]).1.blocks.map
      (fun b => b.tag)) = [B, C] := by
    simp [runOps, CacheSet.insert, CacheSet.access, CacheSet.replace,
      CacheSet.victimIdx, touchBlock, CacheBlock.new, SimCtx.time, minWithIdx,
      hAB, hAC, hBC, Ne.symm hAB, Ne.symm hAC, Ne.symm hBC]
  exact ⟨hmain, by rw [hmain]; simp [hAB, hAC]⟩

/-- Witness for C5 at tags 0, 1, 2. -/
theorem fifo_ignores_retouch_witness :
    ((runOps ⟨2, [], Policy.FIFO⟩ ctx0
        [SetOp.ins 0, SetOp.ins 1, SetOp.touch 0, SetOp.ins 2]).1.blocks.map
      (fun b => b.tag)) = [1, 2] ∧
    (0 : Nat) ∉ ((runOps ⟨2, [], Policy.FIFO⟩ ctx0
        [SetOp.ins 0, SetOp.ins 1, SetOp.touch 0, SetOp.ins 2]).1.blocks.map
      (fun b => b.tag)) :=
  fifo_ignores_retouch 0 1 2 (by decide) (by decide) (by decide) ctx0

/-! ### Lemmas about `CacheLevel` -/

theorem findSet_setSet_same (k : Nat) (v : CacheSet) :
    ∀ sets, findSet k (setSet k v sets) = some v := by
  intro sets
  induction sets with
  | nil => simp [setSet, findSet]
  | cons p rest ih =>
    by_cases hk : p.1 = k
    · simp [setSet, findSet, hk]
    · simp [setSet, findSet, hk, ih]

theorem findSet_setSet_ne (k j : Nat) (v : CacheSet) (hjk : j ≠ k) :
    ∀ sets, findSet j (setSet k v sets) = findSet j sets := by
  intro sets
  induction sets with
  | nil => simp [setSet, findSet, Ne.symm hjk]
  | cons p rest ih =>
    by_cases hk : p.1 = k
    · subst hk
      simp [setSet, findSet, Ne.symm hjk, hjk]
    · simp only [setSet, if_neg hk]
      by_cases hj : p.1 = j
      · simp [findSet, hj]
      · simp [findSet, hj, ih]

theorem CacheLevel.access_shape (l : CacheLevel) (addr : Nat) (c : SimCtx) :
    (l.access addr c).2.1.block_size = l.block_size ∧
    (l.access addr c).2.1.num_sets = l.num_sets ∧
    (l.access addr c).2.1.name = l.name ∧
    (l.access addr c).2.1.access_time = l.access_time := by
  unfold CacheLevel.access
  cases hf : findSet (l.get_index_and_tag addr).1 l.sets with
  | none => simp [hf]
  | some s =>
    by_cases hh : (s.access (l.get_index_and_tag addr).2 c).1 <;> simp [hf, hh]

theorem CacheLevel.access_index (l : CacheLevel) (addr : Nat) (c : SimCtx) (a : Nat) :
    (l.access addr c).2.1.get_index_and_tag a = l.get_index_and_tag a := by
  have h := l.access_shape addr c
  unfold CacheLevel.get_index_and_tag
  rw [h.1, h.2.1]

theorem CacheLevel.access_sets_isSome (l : CacheLevel) (addr : Nat) (c : SimCtx) (j : Nat) :
    (findSet j (l.access addr c).2.1.sets).isSome = (findSet j l.sets).isSome := by
  unfold CacheLevel.access
  cases hf : findSet (l.get_index_and_tag addr).1 l.sets with
  | none => simp [hf]
  | some s =>
    by_cases hj : j = (l.get_index_and_tag addr).1
    · subst hj
      by_cases hh : (s.access (l.get_index_and_tag addr).2 c).1 <;>
        simp [hf, hh, findSet_setSet_same]
    · by_cases hh : (s.access (l.get_index_and_tag addr).2 c).1 <;>
        simp [hf, hh, findSet_setSet_ne _ _ _ hj]

theorem CacheLevel.access_absent (l : CacheLevel) (addr : Nat) (c : SimCtx)
    (hf : findSet (l.get_index_and_tag addr).1 l.sets = none) :
    (l.access addr c).1 = false ∧ (l.access addr c).2.1 = l ∧ (l.access addr c).2.2 = c := by
  unfold CacheLevel.access
  simp [hf]

theorem CacheLevel.access_present (l : CacheLevel) (addr : Nat) (c : SimCtx)
    (hf : (findSet (l.get_index_and_tag addr).1 l.sets).isSome) :
    ((l.access addr c).2.1.hits = l.hits + 1 ∧ (l.access addr c).2.1.misses = l.misses ∧
      (l.access addr c).1 = true) ∨
    ((l.access addr c).2.1.misses = l.misses + 1 ∧ (l.access addr c).2.1.hits = l.hits ∧
      (l.access addr c).1 = false) := by
  unfold CacheLevel.access
  cases hs : findSet (l.get_index_and_tag addr).1 l.sets with
  | none => rw [hs] at hf; simp at hf
  | some s =>
    by_cases hh : (s.access (l.get_index_and_tag addr).2 c).1
    · left; simp [hs, hh]
    · right; simp [hs, hh]

theorem accessFold_counters : ∀ (as' : List Nat) (l : CacheLevel) (c : SimCtx),
    (accessFold l c as').1.hits + (accessFold l c as').1.misses
      = l.hits + l.misses
        + as'.countP (fun a => (findSet (l.get_index_and_tag a).1 l.sets).isSome) := by
  intro as'
  induction as' with
  | nil => intro l c; simp [accessFold]
  | cons a rest ih =>
    intro l c
    simp only [accessFold, List.countP_cons]
    have hstep := ih (l.access a c).2.1 (l.access a c).2.2
    rw [hstep]
    have hpred : rest.countP
        (fun x => (findSet ((l.access a c).2.1.get_index_and_tag x).1
          (l.access a c).2.1.sets).isSome)
        = rest.countP (fun x => (findSet (l.get_index_and_tag x).1 l.sets).isSome) := by
      apply List.countP_congr
      intro x hx
      rw [CacheLevel.access_index, CacheLevel.access_sets_isSome]
    rw [hpred]
    cases hf : findSet (l.get_index_and_tag a).1 l.sets with
    | none =>
      have h := CacheLevel.access_absent l a c hf
      rw [h.2.1]
      simp
    | some s =>
      have h := CacheLevel.access_present l a c (by simp [hf])
      rcases h with ⟨h1, h2, _⟩ | ⟨h1, h2, _⟩ <;> rw [h1, h2] <;> simp <;> omega

/-- A concrete level for witnesses: direct-mapped, no set created yet. -/
def freshLevel : CacheLevel :=
  ⟨"L1 Cache", 4, 1, 1, 1, Policy.LRU, 4, [], 0, 0⟩

/-- C3: a probe (`CacheLevel.access`) against an index where no Set has ever
been created reports a miss and changes nothing; a probe that reaches an
existing Set increments exactly one of the two counters — hence, over any
probe sequence, `hits + misses` grows by exactly the number of probes that
reached an existing Set. -/
theorem probe_counter_conservation :
    (∀ (l : CacheLevel) (addr : Nat) (c : SimCtx),
      (findSet (l.get_index_and_tag addr).1 l.sets = none →
        (l.access addr c).1 = false ∧ (l.access addr c).2.1 = l) ∧
      ((findSet (l.get_index_and_tag addr).1 l.sets).isSome →
        ((l.access addr c).2.1.hits = l.hits + 1 ∧
          (l.access addr c).2.1.misses = l.misses) ∨
        ((l.access addr c).2.1.misses = l.misses + 1 ∧
          (l.access addr c).2.1.hits = l.hits))) ∧
    (∀ (l : CacheLevel) (c : SimCtx) (as' : List Nat),
      (accessFold l c as').1.hits + (accessFold l c as').1.misses
        = l.hits + l.misses
          + as'.countP (fun a => (findSet (l.get_index_and_tag a).1 l.sets).isSome)) := by
  constructor
  · intro l addr c
    constructor
    · intro hf
      have h := CacheLevel.access_absent l addr c hf
      exact ⟨h.1, h.2.1⟩
    · intro hf
      rcases CacheLevel.access_present l addr c hf with ⟨h1, h2, _⟩ | ⟨h1, h2, _⟩
      · exact Or.inl ⟨h1, h2⟩
      · exact Or.inr ⟨h1, h2⟩
  · intro l c as'
    exact accessFold_counters as' l c

/-- Witness for C3: probing the fresh level misses without counting, and a
two-probe sequence against it reaches no existing Set. -/
theorem probe_counter_conservation_witness :
    ((freshLevel.access 0 ctx0).1 = false ∧ (freshLevel.access 0 ctx0).2.1 = freshLevel) ∧
    (accessFold freshLevel ctx0 [0, 1]).1.hits + (accessFold freshLevel ctx0 [0, 1]).1.misses
      = freshLevel.hits + freshLevel.misses
        + List.countP (fun a => (findSet (freshLevel.get_index_and_tag a).1 freshLevel.sets).isSome) [0, 1] :=
  ⟨(probe_counter_conservation.1 freshLevel 0 ctx0).1 rfl,
    probe_counter_conservation.2 freshLevel ctx0 [0, 1]⟩

theorem CacheLevel.access_true_of_mem (l : CacheLevel) (addr : Nat) (c : SimCtx)
    (s : CacheSet) (hf : findSet (l.get_index_and_tag addr).1 l.sets = some s)
    (hm : (l.get_index_and_tag addr).2 ∈ s.blocks.map (fun b => b.tag)) :
    (l.access addr c).1 = true := by
  have hh : (s.access (l.get_index_and_tag addr).2 c).1 = true :=
    (CacheSet.access_fst_iff s (l.get_index_and_tag addr).2 c).mpr hm
  unfold CacheLevel.access
  simp [hf, hh]

theorem CacheLevel.insert_sets (l : CacheLevel) (addr : Nat) (c : SimCtx) :
    ∃ s, findSet (l.get_index_and_tag addr).1 (l.insert addr c).1.sets = some s ∧
      (l.get_index_and_tag addr).2 ∈ s.blocks.map (fun b => b.tag) ∧
      (l.insert addr c).1.block_size = l.block_size ∧
      (l.insert addr c).1.num_sets = l.num_sets := by
  unfold CacheLevel.insert
  cases hf : findSet (l.get_index_and_tag addr).1 l.sets with
  | none =>
    simp only [hf]
    exact ⟨_, findSet_setSet_same _ _ _, CacheSet.insert_mem _ _ _, by trivial, by trivial⟩
  | some s =>
    simp only [hf]
    exact ⟨_, findSet_setSet_same _ _ _, CacheSet.insert_mem _ _ _, by trivial, by trivial⟩

theorem CacheLevel.insert_then_access (l : CacheLevel) (addr : Nat) (c c₂ : SimCtx) :
    ((l.insert addr c).1.access addr c₂).1 = true := by
  obtain ⟨s, hf, hm, hbs, hns⟩ := CacheLevel.insert_sets l addr c
  have hidx : (l.insert addr c).1.get_index_and_tag addr = l.get_index_and_tag addr := by
    unfold CacheLevel.get_index_and_tag
    rw [hbs, hns]
  exact CacheLevel.access_true_of_mem _ addr c₂ s (by rw [hidx]; exact hf)
    (by rw [hidx]; exact hm)

theorem CacheLevel.insert_counters (l : CacheLevel) (addr : Nat) (c : SimCtx) :
    (l.insert addr c).1.hits = l.hits ∧ (l.insert addr c).1.misses = l.misses := by
  unfold CacheLevel.insert
  cases hf : findSet (l.get_index_and_tag addr).1 l.sets <;> simp [hf]

theorem setSet_tags_of_eq (k : Nat) (s s' : CacheSet)
    (hts : s'.blocks.map (fun b => b.tag) = s.blocks.map (fun b => b.tag)) :
    ∀ sets, findSet k sets = some s →
      (setSet k s' sets).map (fun p => (p.1, p.2.blocks.map (fun b => b.tag)))
        = sets.map (fun p => (p.1, p.2.blocks.map (fun b => b.tag))) := by
  intro sets
  induction sets with
  | nil => intro h; simp [findSet] at h
  | cons p rest ih =>
    intro h
    by_cases hk : p.1 = k
    · simp only [findSet, if_pos hk, Option.some.injEq] at h
      simp only [setSet, if_pos hk, List.map_cons]
      rw [hk, h, hts]
    · simp only [findSet, if_neg hk] at h
      simp [setSet, hk, ih h]

theorem CacheLevel.access_levelTags (l : CacheLevel) (addr : Nat) (c : SimCtx) :
    levelTags (l.access addr c).2.1 = levelTags l := by
  unfold CacheLevel.access levelTags
  cases hf : findSet (l.get_index_and_tag addr).1 l.sets with
  | none => simp [hf]
  | some s =>
    by_cases hh : (s.access (l.get_index_and_tag addr).2 c).1 <;>
      simp only [hf, hh, Bool.false_eq_true, if_true, if_false] <;>
      exact setSet_tags_of_eq _ _ _
        (CacheSet.access_tags s (l.get_index_and_tag addr).2 c) l.sets hf

theorem probePhase_hit_lt (addr : Nat) :
    ∀ (ls : List CacheLevel) (c : SimCtx) (t i : Nat) (nm : String),
      (probePhase addr ls c t).1 = some (i, nm) → i < ls.length := by
  intro ls
  induction ls with
  | nil => intro c t i nm h; simp [probePhase] at h
  | cons l rest ih =>
    intro c t i nm h
    simp only [probePhase] at h
    by_cases hh : (l.access addr c).1
    · rw [if_pos hh] at h
      simp only [Option.some.injEq, Prod.mk.injEq] at h
      simp [← h.1]
    · rw [if_neg hh] at h
      simp only [Option.map_eq_some'] at h
      obtain ⟨p, hp, hpe⟩ := h
      obtain ⟨pi, pn⟩ := p
      have := ih ((l.access addr c).2.2) (t + l.access_time) pi pn hp
      simp only [Prod.mk.injEq] at hpe
      simp only [List.length_cons]
      omega

theorem probePhase_tags (addr : Nat) :
    ∀ (ls : List CacheLevel) (c : SimCtx) (t j : Nat),
      ((probePhase addr ls c t).2.2.1.get? j).map levelTags
        = (ls.get? j).map levelTags := by
  intro ls
  induction ls with
  | nil => intro c t j; simp [probePhase]
  | cons l rest ih =>
    intro c t j
    simp only [probePhase]
    by_cases hh : (l.access addr c).1
    · rw [if_pos hh]
      cases j with
      | zero => simp [CacheLevel.access_levelTags]
      | succ j' => simp
    · rw [if_neg hh]
      cases j with
      | zero => simp [CacheLevel.access_levelTags]
      | succ j' => simpa using ih ((l.access addr c).2.2) (t + l.access_time) j'

theorem warmFirstK_get_ge (addr : Nat) :
    ∀ (k : Nat) (ls : List CacheLevel) (c : SimCtx) (j : Nat), k ≤ j →
      (warmFirstK addr k ls c).1.get? j = ls.get? j := by
  intro k
  induction k with
  | zero => intro ls c j hj; simp [warmFirstK]
  | succ k' ih =>
    intro ls c j hj
    cases ls with
    | nil => simp [warmFirstK]
    | cons l rest =>
      cases j with
      | zero => omega
      | succ j' =>
        simp only [warmFirstK, List.get?_cons_succ]
        exact ih rest _ j' (by omega)

theorem warmFirstK_get_lt (addr : Nat) :
    ∀ (k : Nat) (ls : List CacheLevel) (c : SimCtx) (j : Nat) (lj : CacheLevel),
      j < k → ls.get? j = some lj →
      ∃ c₀, (warmFirstK addr k ls c).1.get? j = some ((lj.insert addr c₀).1) := by
  intro k
  induction k with
  | zero => intro ls c j lj hj; omega
  | succ k' ih =>
    intro ls c j lj hj hg
    cases ls with
    | nil => simp at hg
    | cons l rest =>
      cases j with
      | zero =>
        simp only [List.get?_cons_zero, Option.some.injEq] at hg
        subst hg
        exact ⟨c, by simp [warmFirstK]⟩
      | succ j' =>
        simp only [List.get?_cons_succ] at hg
        obtain ⟨c₀, hc₀⟩ := ih rest ((l.insert addr c).2) j' lj (by omega) hg
        exact ⟨c₀, by simpa [warmFirstK] using hc₀⟩

theorem warmAll_get (addr : Nat) :
    ∀ (ls : List CacheLevel) (c : SimCtx) (j : Nat) (lj : CacheLevel),
      (warmAll addr ls c).1.get? j = some lj →
      ∃ lj₀ c₀, ls.get? j = some lj₀ ∧ lj = (lj₀.insert addr c₀).1 := by
  intro ls
  induction ls with
  | nil => intro c j lj h; simp [warmAll] at h
  | cons l rest ih =>
    intro c j lj h
    cases j with
    | zero =>
      simp only [warmAll, List.get?_cons_zero, Option.some.injEq] at h
      exact ⟨l, c, rfl, h.symm⟩
    | succ j' =>
      simp only [warmAll, List.get?_cons_succ] at h
      obtain ⟨lj₀, c₀, hg, he⟩ := ih ((l.insert addr c).2) j' lj h
      exact ⟨lj₀, c₀, by simpa using hg, he⟩

/-- C1: if `resolve` (access_memory) hits at a position `i > 0`, then in the
post-state every level `0..i-1` re-probes the address as a hit, while the
hitting level's set contents (which blocks live at which index) are exactly
what they were before the call — the warm-up created no block there. -/
theorem inclusion_after_hit (h : MemoryHierarchy) (addr : Nat) (c : SimCtx)
    (i : Nat) (nm : String)
    (hp : (probePhase addr h.levels c 0).1 = some (i, nm)) (hi : 0 < i) :
    (∀ j lj, j < i → (h.access_memory addr c).2.1.levels.get? j = some lj →
      ∀ c₂, (lj.access addr c₂).1 = true) ∧
    ((h.access_memory addr c).2.1.levels.get? i).map levelTags
      = (h.levels.get? i).map levelTags := by
  have hilen : i < h.levels.length := probePhase_hit_lt addr h.levels c 0 i nm hp
  simp only [MemoryHierarchy.access_memory, hp]
  constructor
  · intro j lj hj hg c₂
    have hjlen : j < h.levels.length := lt_trans hj hilen
    have hsrc : h.levels.get? j = some (h.levels.get ⟨j, hjlen⟩) :=
      List.get?_eq_get hjlen
    have htags := probePhase_tags addr h.levels c 0 j
    obtain ⟨lj0, hlj0⟩ : ∃ lj0,
        (probePhase addr h.levels c 0).2.2.1.get? j = some lj0 := by
      cases hls : (probePhase addr h.levels c 0).2.2.1.get? j with
      | none => rw [hls, hsrc] at htags; simp at htags
      | some x => exact ⟨x, rfl⟩
    obtain ⟨c₀, hw⟩ := warmFirstK_get_lt addr i
      (probePhase addr h.levels c 0).2.2.1 (probePhase addr h.levels c 0).2.2.2
      j lj0 hj hlj0
    rw [hg] at hw
    rw [Option.some.inj hw]
    exact CacheLevel.insert_then_access lj0 addr c₀ c₂
  · rw [warmFirstK_get_ge addr i _ _ i (le_refl i)]
    exact probePhase_tags addr h.levels c 0 i

/-- C2: when no cache level hits, the terminal store's `hits` counter rises by
exactly one, and every level — the terminal store included — re-probes the
address as a hit afterwards (the full top-to-bottom warm-up). -/
theorem full_warmup_after_terminal (h : MemoryHierarchy) (addr : Nat) (c : SimCtx)
    (hp : (probePhase addr h.levels c 0).1 = none) :
    (h.access_memory addr c).2.1.disk_level.hits = h.disk_level.hits + 1 ∧
    (∀ c₂, ((h.access_memory addr c).2.1.disk_level.access addr c₂).1 = true) ∧
    (∀ j lj, (h.access_memory addr c).2.1.levels.get? j = some lj →
      ∀ c₂, (lj.access addr c₂).1 = true) := by
  simp only [MemoryHierarchy.access_memory, hp]
  refine ⟨?_, ?_, ?_⟩
  · rw [(CacheLevel.insert_counters _ addr _).1]
  · intro c₂
    exact CacheLevel.insert_then_access _ addr _ c₂
  · intro j lj hg c₂
    obtain ⟨lj₀, c₀, _, he⟩ := warmAll_get addr _ _ j lj hg
    rw [he]
    exact CacheLevel.insert_then_access lj₀ addr c₀ c₂

/-- A placeholder level used only as a `getD` default for samples. -/
def defaultLevel : CacheLevel := ⟨"", 0, 1, 1, 0, Policy.FIFO, 1, [], 0, 0⟩

/-- A small valid configuration (L2/L3 disabled, tiny sizes). -/
def sampleCfg : Config :=
  { policy := Policy.LRU, block_size := 1, l1_size := 4, l1_assoc := 1, l1_time := 1,
    l2_enabled := false, l2_size := 0, l2_assoc := 8, l2_time := 5,
    l3_enabled := false, l3_size := 0, l3_assoc := 16, l3_time := 15,
    ram_size := 0, ram_time := 100, disk_size := 0, disk_time := 1000 }

/-- The hierarchy `sampleCfg` constructs. -/
def sampleH0 : MemoryHierarchy :=
  ((MemoryHierarchy.init sampleCfg).toOption).getD ⟨[], defaultLevel⟩

/-- An L2-style level already holding the block of address 0. -/
def warmedL2 : CacheLevel :=
  ⟨"L2 Cache", 4, 1, 1, 5, Policy.LRU, 1, [(0, ⟨1, [⟨0, 0, 0, 1⟩], Policy.LRU⟩)], 0, 0⟩

/-- A hierarchy whose L1 is cold and whose second level holds address 0. -/
def twoLevelH : MemoryHierarchy := ⟨[freshLevel, warmedL2], defaultLevel⟩

/-- Witness for C1: resolving address 0 on `twoLevelH` hits at position 1. -/
theorem inclusion_after_hit_witness :
    ((twoLevelH.access_memory 0 ctx0).2.1.levels.get? 1).map levelTags
      = (twoLevelH.levels.get? 1).map levelTags :=
  (inclusion_after_hit twoLevelH 0 ctx0 1 "L2 Cache" rfl (by decide)).2

/-- Witness for C2: resolving address 0 on the freshly built `sampleH0` goes
to the terminal store and bumps its hits from 0 to 1. -/
theorem full_warmup_after_terminal_witness :
    (sampleH0.access_memory 0 ctx0).2.1.disk_level.hits
      = sampleH0.disk_level.hits + 1 :=
  (full_warmup_after_terminal sampleH0 0 ctx0 rfl).1

theorem CacheLevel.init_ok_misses (nm : String) (sz bs a t : Nat) (p : Policy)
    (l : CacheLevel) (h : CacheLevel.init nm sz bs a t p = Except.ok l) :
    l.misses = 0 := by
  unfold CacheLevel.init at h
  split at h
  · simp at h
  · split at h <;> (simp only [Except.ok.injEq] at h; rw [← h])

theorem MemoryHierarchy.init_disk_misses (cfg : Config) (h : MemoryHierarchy)
    (hh : MemoryHierarchy.init cfg = Except.ok h) : h.disk_level.misses = 0 := by
  unfold MemoryHierarchy.init at hh
  split at hh
  · simp at hh
  · split at hh
    · simp at hh
    · split at hh
      · simp at hh
      · split at hh
        · simp at hh
        · split at hh
          · simp at hh
          · rename_i disk hdisk
            simp only [Except.ok.injEq] at hh
            subst hh
            exact CacheLevel.init_ok_misses _ _ _ _ _ _ _ hdisk

theorem MemoryHierarchy.access_memory_disk_misses (h : MemoryHierarchy) (a : Nat)
    (c : SimCtx) :
    (h.access_memory a c).2.1.disk_level.misses = h.disk_level.misses := by
  cases hp : (probePhase a h.levels c 0).1 with
  | none =>
    simp only [MemoryHierarchy.access_memory, hp]
    rw [(CacheLevel.insert_counters _ a _).2]
  | some p =>
    obtain ⟨i, nm⟩ := p
    simp only [MemoryHierarchy.access_memory, hp]

theorem runAddrs_disk_misses : ∀ (as' : List Nat) (h : MemoryHierarchy) (c : SimCtx),
    (runAddrs h c as').1.disk_level.misses = h.disk_level.misses := by
  intro as'
  induction as' with
  | nil => intro h c; rfl
  | cons a rest ih =>
    intro h c
    simp only [runAddrs]
    rw [ih, MemoryHierarchy.access_memory_disk_misses]

/-- C10: starting from any freshly constructed hierarchy, no sequence of
`access_memory` calls ever touches the terminal store's `misses` counter — it
stays 0 in every reachable state. -/
theorem disk_never_misses (cfg : Config) (h0 : MemoryHierarchy)
    (hinit : MemoryHierarchy.init cfg = Except.ok h0) (c : SimCtx) (as' : List Nat) :
    (runAddrs h0 c as').1.disk_level.misses = 0 := by
  rw [runAddrs_disk_misses as' h0 c]
  exact MemoryHierarchy.init_disk_misses cfg h0 hinit

/-- Witness for C10 on the sample configuration and a three-address trace. -/
theorem disk_never_misses_witness :
    (runAddrs sampleH0 ctx0 [0, 1, 0]).1.disk_level.misses = 0 :=
  disk_never_misses sampleCfg sampleH0 rfl ctx0 [0, 1, 0]

/-- C6: `generate_locality` with `0 < n < 10` always hits the unguarded
`i % (num_requests // 10)` with a zero divisor and faults, while a request of
at least 10 addresses succeeds and yields exactly `n` addresses — the source
has no clamp on the chunk size. -/
theorem locality_division_fault :
    AccessPatternGenerator.generate_locality ⟨1000⟩ (fun _ => 0) ctx0 5 = none ∧
    (AccessPatternGenerator.generate_locality ⟨1000⟩ (fun _ => 0) ctx0 12).map
      (fun p => p.1.length) = some 12 :=
  ⟨rfl, rfl⟩

/-- C7 counterexample: constructing a generator with `max_address = 0` (a
non-positive address space) succeeds instead of raising InvalidArgument. -/
theorem patgen_no_validation_counterexample :
    AccessPatternGenerator.init 0 = Except.ok ⟨0⟩ ∧
    AccessPatternGenerator.init 0 ≠ Except.error SimError.invalidArgument := by
  exact ⟨rfl, by simp [AccessPatternGenerator.init]⟩

/-- C7 amended: the constructor performs no validation at all — it succeeds
for every `max_address`, positive or not, and stores it unchanged. -/
theorem patgen_init_total (m : Int) :
    AccessPatternGenerator.init m = Except.ok ⟨m⟩ := rfl

/-- A configuration that is out of range: a zero block size. -/
def badConfig : Config := { sampleCfg with block_size := 0 }

/-- C8 counterexample: the out-of-range `badConfig` makes hierarchy
construction fail with a division fault raised inside the first Level's
construction — not with a ConfigurationError, which the source never
raises. -/
theorem hierarchy_init_no_config_error_counterexample :
    MemoryHierarchy.init badConfig = Except.error SimError.zeroDivision ∧
    SimError.zeroDivision ≠ SimError.configurationError :=
  ⟨rfl, by decide⟩

/-- C8 amended: hierarchy construction performs no configuration validation:
a zero `block_size` surfaces as a division fault from inside Level
construction, and any configuration with a nonzero `block_size` constructs
successfully — no ConfigurationError exists in the code. -/
theorem hierarchy_init_no_validation (cfg : Config) :
    (cfg.block_size = 0 →
      MemoryHierarchy.init cfg = Except.error SimError.zeroDivision) ∧
    (cfg.block_size ≠ 0 → ∃ h, MemoryHierarchy.init cfg = Except.ok h) := by
  constructor
  · intro hbs
    unfold MemoryHierarchy.init
    rw [show CacheLevel.init "L1 Cache" cfg.l1_size cfg.block_size cfg.l1_assoc
        cfg.l1_time cfg.policy = Except.error SimError.zeroDivision from by
      simp [CacheLevel.init, hbs]]
  · intro hbs
    have hok : ∀ nm sz a t p, ∃ l,
        CacheLevel.init nm sz cfg.block_size a t p = Except.ok l := by
      intro nm sz a t p
      unfold CacheLevel.init
      rw [if_neg hbs]
      by_cases ha : a = 0
      · exact ⟨_, by rw [if_pos ha]⟩
      · exact ⟨_, by rw [if_neg ha]⟩
    obtain ⟨l1, h1⟩ := hok "L1 Cache" cfg.l1_size cfg.l1_assoc cfg.l1_time cfg.policy
    obtain ⟨l2, h2⟩ := hok "L2 Cache" cfg.l2_size cfg.l2_assoc cfg.l2_time cfg.policy
    obtain ⟨l3, h3⟩ := hok "L3 Cache" cfg.l3_size cfg.l3_assoc cfg.l3_time cfg.policy
    obtain ⟨ram, h4⟩ := hok "Main Memory (RAM)" (cfg.ram_size * 1024 * 1024) 8
      cfg.ram_time cfg.policy
    obtain ⟨disk, h5⟩ := hok "Secondary Memory (Disk)"
      (cfg.disk_size * 1024 * 1024 * 1024) 1 cfg.disk_time Policy.FIFO
    unfold MemoryHierarchy.init
    rw [h1]
    cases hl2 : cfg.l2_enabled <;> cases hl3 : cfg.l3_enabled <;>
      simp only [h2, h3, h4, h5, Except.map, if_true, if_false,
        Bool.false_eq_true, ite_false, ite_true] <;>
      exact ⟨_, rfl⟩

/-- Witness for C8's amended statement: the sample configuration (nonzero
block size) constructs successfully. -/
theorem hierarchy_init_no_validation_witness :
    ∃ h, MemoryHierarchy.init sampleCfg = Except.ok h :=
  (hierarchy_init_no_validation sampleCfg).2 (by decide)

/-- C9: the analyzer's `amat` field is the exact quotient
`total_time / num_requests` when `num_requests > 0` (so `amat * num_requests`
recovers `total_time`), and 0 when `num_requests = 0`. -/
theorem amat_spec (h : MemoryHierarchy) (t n : Nat) :
    (0 < n → (PerformanceAnalyzer.init h t n).amat = (t : ℚ) / (n : ℚ) ∧
      (PerformanceAnalyzer.init h t n).amat * (n : ℚ) = (t : ℚ)) ∧
    (n = 0 → (PerformanceAnalyzer.init h t n).amat = 0) := by
  constructor
  · intro hn
    have h1 : (PerformanceAnalyzer.init h t n).amat = (t : ℚ) / (n : ℚ) := by
      simp [PerformanceAnalyzer.init, hn]
    refine ⟨h1, ?_⟩
    rw [h1]
    exact div_mul_cancel₀ (t : ℚ)
      (Nat.cast_ne_zero.mpr (Nat.pos_iff_ne_zero.mp hn))
  · intro hn
    subst hn
    simp [PerformanceAnalyzer.init]

/-- Witness for C9 at `total_time = 7`, `num_requests = 2`. -/
theorem amat_spec_witness :
    (PerformanceAnalyzer.init ⟨[], defaultLevel⟩ 7 2).amat * ((2 : Nat) : ℚ)
      = ((7 : Nat) : ℚ) :=
  ((amat_spec ⟨[], defaultLevel⟩ 7 2).1 (by decide)).2
